import Mathlib

/-!
Verification of the pipeline orchestration core of the data-loader frontend.

The development shallowly embeds the per-file record model, the stage gate,
the batch-operation request construction, the result reconcilers and the
retry coordinator of the repository, and settles the frozen claims about
them.  Sources:

  - src/components/file-processing.tsx : FileProcessing (startProcessing,
    resetProcessing), the page module with FileData, FileUpload
    (handleUpload), DataLoaderAutomation (canProceed)
  - src/components/ingestion-process.tsx : IngestionProcess
    (handleIngestion, startIngestion, retryFailedIngestion)
  - src/unnamed/part_000 : FolderSelection (toggleFileSelection,
    toggleAllFiles) and SummaryView (getIngestionDetailsAsArray)
-/

/-- JsValue is a model of the dynamic JavaScript values the frontend passes
around: null, undefined, booleans, numbers, strings, arrays and plain
objects (ordered own-property association lists). -/
inductive JsValue where
  | vnull
  | vundef
  | vbool (b : Bool)
  | vnum (n : Int)
  | vstr (s : String)
  | varr (elems : List JsValue)
  | vobj (fields : List (String × JsValue))

/-- Truthiness of a JsValue, as JavaScript coerces a value in a boolean
context: null, undefined, false, 0 and the empty string are falsy. -/
def jsTruthy : JsValue → Bool
  | .vnull => false
  | .vundef => false
  | .vbool b => b
  | .vnum n => n != 0
  | .vstr s => s != ""
  | .varr _ => true
  | .vobj _ => true

/-- Classification tag of a file, from the closed union
  "Structured" | "Semi-Structured" | "Unstructured"  (app/page.tsx). -/
inductive Classification where
  | structured
  | semiStructured
  | unstructured
deriving DecidableEq

/-- Ingestion status of a record: "pending" | "success" | "failed"
  (FileData.ingestionStatus in app/page.tsx). -/
inductive IngestionStatus where
  | pending
  | success
  | failed
deriving DecidableEq

/-- Status entry of a per-file ingestion outcome: "success" | "failed"
  (FileIngestionResult.status in ingestion-process.tsx). -/
inductive ResStatus where
  | success
  | failed
deriving DecidableEq

/-- Status of the upload step, 'idle' | 'uploading' | 'success' | 'failed'
  (the uploadStatus state of DataLoaderAutomation). -/
inductive UploadStatus where
  | idle
  | uploading
  | success
  | failed
deriving DecidableEq

/-- Quality metrics delivered by the analysis endpoint
  (ApiResult.qualityMetrics in file-processing.tsx). -/
structure QualityMetrics where
  parseAccuracy : Int
  completeness : Int
  complexity : Int
deriving DecidableEq

/-- FileRecord is the per-file state unit, FileData in app/page.tsx.  The
optional TS fields become Option; the optional boolean uploaded is modelled
as Bool because the code only ever tests it truthily. -/
structure FileRecord where
  id : String
  name : String
  path : String
  size : Nat
  type : String
  selected : Bool
  processed : Bool
  uploaded : Bool
  qualityMetrics : Option QualityMetrics
  classification : Option Classification
  ingestionStatus : Option IngestionStatus
  ingestionDetails : Option JsValue
  analysis : Option JsValue
  error : Option String

/-- Entry of the upload response: result.files elements {name, path}
  (handleUpload in app/page.tsx). -/
structure UploadedFile where
  name : String
  path : String
deriving DecidableEq

/-- Per-file outcome of the analysis endpoint (ApiResult in
file-processing.tsx). -/
structure ApiResult where
  fileName : String
  qualityMetrics : QualityMetrics
  classification : Classification
deriving DecidableEq

/-- Per-file outcome of the ingestion endpoint (FileIngestionResult in
ingestion-process.tsx).  ingestionDetails is a raw JS value because the
code tests it truthily before storing it. -/
structure FileIngestionResult where
  fileName : String
  fileSize : Nat
  status : ResStatus
  ingestionDetails : JsValue
  error : Option String

/-- Outcome of one batch network call: either a parsed per-file result
list, or a fatal transport or parse failure (the catch path). -/
inductive BatchOutcome where
  | ok (results : List FileIngestionResult)
  | fatal

/-- Request payload issued by a batch operation, reduced to the names of
the files it carries. -/
structure BatchRequest where
  fileNames : List String
deriving DecidableEq

/-! ## Folder selection operations (src/unnamed/part_000) -/

/-- toggleFileSelection flips the selected flag of the record with the
given id. -/
def toggleFileSelection (fileId : String) (files : List FileRecord) : List FileRecord :=
  files.map fun file => if file.id == fileId then { file with selected := !file.selected } else file

/-- toggleAllFiles sets the selected flag of every record to checked. -/
def toggleAllFiles (checked : Bool) (files : List FileRecord) : List FileRecord :=
  files.map fun file => { file with selected := checked }

/-! ## Upload step (FileUpload in app/page.tsx) -/

/-- Subset handleUpload submits: files.filter(f => f.selected && !f.uploaded). -/
def selectedFilesToUpload (files : List FileRecord) : List FileRecord :=
  files.filter fun f => f.selected && !f.uploaded

/-- Request construction of handleUpload: it returns before the network
call when selectedFilesToUpload is empty, otherwise issues one request
carrying that subset. -/
def uploadRequest (files : List FileRecord) : Option BatchRequest :=
  if (selectedFilesToUpload files).length = 0 then none
  else some { fileNames := (selectedFilesToUpload files).map (·.name) }

/-- Reconciliation pass of handleUpload: each record whose name is found
among the uploaded files gains uploaded = true and adopts the server path;
all other records are returned unchanged. -/
def handleUploadReconcile (uploadedFiles : List UploadedFile) (files : List FileRecord) :
    List FileRecord :=
  files.map fun f =>
    match uploadedFiles.find? (fun uf => uf.name == f.name) with
    | some uf => { f with uploaded := true, path := uf.path }
    | none => f

/-! ## Processing / analysis stage (FileProcessing in file-processing.tsx) -/

/-- Request construction of startProcessing: the body has no empty-subset
guard, it always issues the network call, carrying the selected files. -/
def processRequest (files : List FileRecord) : Option BatchRequest :=
  some { fileNames := (files.filter (fun f => f.selected)).map (·.name) }

/-- Reset pass at the top of startProcessing: every selected record has
processed, qualityMetrics and classification cleared in one map; other
records and all other fields are untouched. -/
def startProcessingReset (files : List FileRecord) : List FileRecord :=
  files.map fun f =>
    if f.selected then
      { f with processed := false, qualityMetrics := none, classification := none }
    else f

/-- Lookup in the result map built by startProcessing via
  new Map(results.map(r => [r.fileName, r])) : with duplicate names the
later entry overwrites the earlier one, as the JS Map constructor does. -/
def resultMapGet (results : List ApiResult) (name : String) : Option ApiResult :=
  results.foldl (fun acc r => if r.fileName == name then some r else acc) none

/-- Reconciliation pass of startProcessing: a record that is selected and
has a result under its name is marked processed with the metrics and
classification of the result; every other record is returned unchanged. -/
def startProcessingReconcile (results : List ApiResult) (files : List FileRecord) :
    List FileRecord :=
  files.map fun file =>
    match resultMapGet results file.name with
    | some result =>
        if file.selected then
          { file with
              processed := true,
              qualityMetrics := some result.qualityMetrics,
              classification := some result.classification }
        else file
    | none => file

/-- resetProcessing clears processed, qualityMetrics and classification of
every record in one map. -/
def resetProcessing (files : List FileRecord) : List FileRecord :=
  files.map fun f =>
    { f with processed := false, qualityMetrics := none, classification := none }

/-! ## Ingestion stage (IngestionProcess in ingestion-process.tsx) -/

/-- Request construction of handleIngestion: it returns before everything
when the subset is empty, otherwise issues one request over the subset. -/
def ingestRequest (filesToProcess : List FileRecord) : Option BatchRequest :=
  if filesToProcess.length = 0 then none
  else some { fileNames := filesToProcess.map (·.name) }

/-- First setFiles pass of handleIngestion: the records of the submitted
subset, matched by id, are set to pending with details and error
cleared. -/
def ingestPendingPass (filesToProcess : List FileRecord) (files : List FileRecord) :
    List FileRecord :=
  files.map fun f =>
    if filesToProcess.any (fun p => p.id == f.id) then
      { f with ingestionStatus := some .pending, ingestionDetails := none, error := none }
    else f

/-- Overwrite or append a key in an object field list, as a JS object
literal key does. -/
def setKey : List (String × JsValue) → String → JsValue → List (String × JsValue)
  | [], k, v => [(k, v)]
  | (k', v') :: kvs, k, v =>
      if k' == k then (k, v) :: kvs else (k', v') :: setKey kvs k v

/-- Own enumerable properties a spread of the value contributes to an
object literal: object fields, index-keyed array elements, index-keyed
string characters, nothing for primitives. -/
def spreadOwn : JsValue → List (String × JsValue)
  | .vobj kvs => kvs
  | .varr es => es.enum.map fun p => (toString p.1, p.2)
  | .vstr s => s.toList.enum.map fun p => (toString p.1, .vstr (String.mk [p.2]))
  | _ => []

/-- The stored detail object { ...result.ingestionDetails, startTime,
endTime } built in the reconcile pass of handleIngestion. -/
def withTimes (now : String) (d : JsValue) : JsValue :=
  .vobj (setKey (setKey (spreadOwn d) "startTime" (.vstr now)) "endTime" (.vstr now))

/-- The empty string is falsy, so result.error || undefined maps both null
and the empty string to undefined. -/
def jsOrUndef : Option String → Option String
  | some s => if s == "" then none else some s
  | none => none

/-- Per-match update of the reconcile pass of handleIngestion: status from
the outcome, details wrapped with times when truthy and null otherwise,
error through the || undefined coercion.  All other fields are kept. -/
def ingestUpdateRecord (now : String) (r : FileIngestionResult) (f : FileRecord) : FileRecord :=
  { f with
      ingestionStatus :=
        some (match r.status with | .success => IngestionStatus.success | .failed => .failed),
      ingestionDetails :=
        if jsTruthy r.ingestionDetails then some (withTimes now r.ingestionDetails) else none,
      error := jsOrUndef r.error }

/-- One results.forEach step of the reconcile pass: findIndex locates the
first record whose name equals the outcome fileName and replaces it; when
no record matches, the store is unchanged. -/
def ingestApplyResult (now : String) (r : FileIngestionResult) :
    List FileRecord → List FileRecord
  | [] => []
  | f :: fs =>
      if f.name == r.fileName then ingestUpdateRecord now r f :: fs
      else f :: ingestApplyResult now r fs

/-- Reconcile pass of handleIngestion over the whole result list, applied
left to right as results.forEach does. -/
def ingestReconcile (now : String) (results : List FileIngestionResult)
    (files : List FileRecord) : List FileRecord :=
  results.foldl (fun acc r => ingestApplyResult now r acc) files

/-- Catch path of handleIngestion: every record whose status is pending is
marked failed with the generic transport message. -/
def ingestFailPass (files : List FileRecord) : List FileRecord :=
  files.map fun f =>
    if f.ingestionStatus == some .pending then
      { f with ingestionStatus := some .failed, error := some ("API connection failed") }
    else f

/-- handleIngestion as a store transformation: guard on the empty subset,
then the pending pass, then either the reconcile pass on the parsed
results or the catch path on a fatal outcome. -/
def handleIngestion (now : String) (filesToProcess : List FileRecord)
    (outcome : BatchOutcome) (files : List FileRecord) : List FileRecord :=
  if filesToProcess.length = 0 then files
  else
    match outcome with
    | .ok results => ingestReconcile now results (ingestPendingPass filesToProcess files)
    | .fatal => ingestFailPass (ingestPendingPass filesToProcess files)

/-- The failed subset retryFailedIngestion derives:
  files.filter(f => f.ingestionStatus === "failed"). -/
def retrySubset (files : List FileRecord) : List FileRecord :=
  files.filter fun f => f.ingestionStatus == some .failed

/-- retryFailedIngestion re-invokes handleIngestion on exactly the failed
subset. -/
def retryFailedIngestion (now : String) (outcome : BatchOutcome)
    (files : List FileRecord) : List FileRecord :=
  handleIngestion now (retrySubset files) outcome files

/-! ## Stage gate (canProceed in DataLoaderAutomation, app/page.tsx) -/

/-- canProceed decides whether the Next button is enabled for the current
step; step 2 (upload) consults only the uploadStatus flag. -/
def canProceed (currentStep : Nat) (files : List FileRecord)
    (uploadStatus : UploadStatus) : Bool :=
  match currentStep with
  | 1 => files.any fun f => f.selected
  | 2 => uploadStatus == .success
  | 3 => (files.filter fun f => f.selected).all fun f => f.processed
  | 4 => files.any fun f => f.selected
  | 5 => true
  | 6 => (files.filter fun f => f.selected).any fun f => f.ingestionStatus == some .success
  | _ => true

/-! ## Summary view normalization (src/unnamed/part_000) -/

/-- getIngestionDetailsAsArray: falsy input gives the empty sequence, an
array is returned as is, any other object has its property values taken
via Object.values, and any remaining primitive gives the empty
sequence. -/
def getIngestionDetailsAsArray (details : JsValue) : List JsValue :=
  if jsTruthy details then
    match details with
    | .varr es => es
    | .vobj kvs => kvs.map Prod.snd
    | _ => []
  else []

/-! ## Helper lemmas -/

/-- ingestUpdateRecord changes only ingestionStatus, ingestionDetails and
error; name, id, uploaded, selected, processed, metrics, classification
and analysis are untouched. -/
theorem ingestUpdateRecord_fields (now : String) (r : FileIngestionResult) (f : FileRecord) :
    (ingestUpdateRecord now r f).name = f.name ∧
      (ingestUpdateRecord now r f).uploaded = f.uploaded := ⟨rfl, rfl⟩

/-- A record whose name differs from the outcome fileName is untouched by
one forEach step of the ingestion reconcile. -/
theorem ingestApplyResult_skip (now : String) (r : FileIngestionResult)
    (fs : List FileRecord) (i : Nat) (f : FileRecord)
    (hf : fs[i]? = some f) (hne : r.fileName ≠ f.name) :
    (ingestApplyResult now r fs)[i]? = some f := by
  induction fs generalizing i with
  | nil => simp at hf
  | cons a fs ih =>
    cases hb : a.name == r.fileName with
    | true =>
      cases i with
      | zero =>
        simp only [List.getElem?_cons_zero, Option.some_inj] at hf
        exact absurd ((eq_of_beq hb).symm.trans (congrArg FileRecord.name hf)) hne
      | succ n =>
        simp only [List.getElem?_cons_succ] at hf
        simpa [ingestApplyResult, hb] using hf
    | false =>
      cases i with
      | zero =>
        simp only [List.getElem?_cons_zero, Option.some_inj] at hf
        subst hf
        simp [ingestApplyResult, hb]
      | succ n =>
        simp only [List.getElem?_cons_succ] at hf
        simpa [ingestApplyResult, hb] using ih n hf

/-- A record whose name matches no outcome in the result list is untouched
by the whole ingestion reconcile pass. -/
theorem ingestReconcile_skip (now : String) (results : List FileIngestionResult)
    (fs : List FileRecord) (i : Nat) (f : FileRecord)
    (hf : fs[i]? = some f) (hne : ∀ r ∈ results, r.fileName ≠ f.name) :
    (ingestReconcile now results fs)[i]? = some f := by
  induction results generalizing fs with
  | nil => exact hf
  | cons r rs ih =>
    have h1 : (ingestApplyResult now r fs)[i]? = some f :=
      ingestApplyResult_skip now r fs i f hf (hne r (List.mem_cons_self r rs))
    simpa [ingestReconcile, List.foldl_cons] using
      ih (ingestApplyResult now r fs) h1 (fun r' hr' => hne r' (List.mem_cons_of_mem r hr'))

/-- At every index, one forEach step of the ingestion reconcile either
keeps the record or replaces it by its update. -/
theorem ingestApplyResult_getElem? (now : String) (r : FileIngestionResult)
    (fs : List FileRecord) (i : Nat) :
    (ingestApplyResult now r fs)[i]? = fs[i]? ∨
      ∃ f, fs[i]? = some f ∧
        (ingestApplyResult now r fs)[i]? = some (ingestUpdateRecord now r f) := by
  induction fs generalizing i with
  | nil => left; rfl
  | cons a fs ih =>
    cases hb : a.name == r.fileName with
    | true =>
      cases i with
      | zero => right; exact ⟨a, by simp, by simp [ingestApplyResult, hb]⟩
      | succ n => left; simp [ingestApplyResult, hb]
    | false =>
      cases i with
      | zero => left; simp [ingestApplyResult, hb]
      | succ n =>
        rcases ih n with h | ⟨f, hf, hupd⟩
        · left; simpa [ingestApplyResult, hb] using h
        · right; exact ⟨f, by simpa using hf, by simpa [ingestApplyResult, hb] using hupd⟩

/-- The uploaded flag at every index is unchanged by one forEach step of
the ingestion reconcile. -/
theorem ingestApplyResult_uploaded (now : String) (r : FileIngestionResult)
    (fs : List FileRecord) (i : Nat) :
    ((ingestApplyResult now r fs)[i]?).map FileRecord.uploaded =
      (fs[i]?).map FileRecord.uploaded := by
  rcases ingestApplyResult_getElem? now r fs i with h | ⟨f, hf, hupd⟩
  · rw [h]
  · rw [hupd, hf]; rfl

/-- The uploaded flag at every index is unchanged by the whole ingestion
reconcile pass. -/
theorem ingestReconcile_uploaded (now : String) (results : List FileIngestionResult)
    (fs : List FileRecord) (i : Nat) :
    ((ingestReconcile now results fs)[i]?).map FileRecord.uploaded =
      (fs[i]?).map FileRecord.uploaded := by
  induction results generalizing fs with
  | nil => rfl
  | cons r rs ih =>
    calc ((ingestReconcile now (r :: rs) fs)[i]?).map FileRecord.uploaded
        = ((ingestReconcile now rs (ingestApplyResult now r fs))[i]?).map FileRecord.uploaded := by
          simp [ingestReconcile, List.foldl_cons]
      _ = ((ingestApplyResult now r fs)[i]?).map FileRecord.uploaded :=
          ih (ingestApplyResult now r fs)
      _ = (fs[i]?).map FileRecord.uploaded := ingestApplyResult_uploaded now r fs i

/-- When every result name misses the given name, the startProcessing
result map lookup is empty. -/
theorem resultMapGet_eq_none (results : List ApiResult) (name : String)
    (h : ∀ r ∈ results, r.fileName ≠ name) : resultMapGet results name = none := by
  have key : ∀ acc : Option ApiResult,
      results.foldl (fun acc r => if r.fileName == name then some r else acc) acc = acc := by
    induction results with
    | nil => intro acc; rfl
    | cons r rs ih =>
      intro acc
      have hr : ¬(r.fileName = name) := h r (List.mem_cons_self r rs)
      calc (r :: rs).foldl (fun acc r => if r.fileName == name then some r else acc) acc
          = rs.foldl (fun acc r => if r.fileName == name then some r else acc) acc := by
            simp [List.foldl_cons, hr]
        _ = acc := ih (fun r' hr' => h r' (List.mem_cons_of_mem r hr')) acc
  exact key none

/-- errInv states that every failed record carries a present, non-empty
error message. -/
def errInv (files : List FileRecord) : Prop :=
  ∀ f ∈ files, f.ingestionStatus = some IngestionStatus.failed →
    f.error ≠ none ∧ f.error ≠ some ""

/-- When a failed outcome carries a present, non-empty error, the updated
record keeps a present, non-empty error whenever it is marked failed. -/
theorem ingestUpdateRecord_errOk (now : String) (r : FileIngestionResult) (f : FileRecord)
    (hr : r.status = ResStatus.failed → r.error ≠ none ∧ r.error ≠ some "") :
    (ingestUpdateRecord now r f).ingestionStatus = some IngestionStatus.failed →
      (ingestUpdateRecord now r f).error ≠ none ∧ (ingestUpdateRecord now r f).error ≠ some "" := by
  intro hst
  cases hs : r.status with
  | success =>
    exfalso
    rw [ingestUpdateRecord] at hst
    simp only [hs] at hst
    exact IngestionStatus.noConfusion (Option.some_inj.mp hst)
  | failed =>
    obtain ⟨h1, h2⟩ := hr hs
    cases he : r.error with
    | none => exact absurd he h1
    | some s =>
      have hs' : ¬(s = "") := by
        intro h
        subst h
        exact h2 he
      constructor <;> simp [ingestUpdateRecord, jsOrUndef, he, hs']

/-- One forEach step of the ingestion reconcile preserves errInv when the
outcome is well-formed. -/
theorem errInv_ingestApplyResult (now : String) (r : FileIngestionResult)
    (fs : List FileRecord) (hinv : errInv fs)
    (hr : r.status = ResStatus.failed → r.error ≠ none ∧ r.error ≠ some "") :
    errInv (ingestApplyResult now r fs) := by
  induction fs with
  | nil => intro g hg; simp [ingestApplyResult] at hg
  | cons a fs ih =>
    have hinvTail : errInv fs := fun g hg => hinv g (List.mem_cons_of_mem a hg)
    intro g hg
    cases hb : a.name == r.fileName with
    | true =>
      rw [ingestApplyResult, if_pos hb] at hg
      rcases List.mem_cons.mp hg with h | h
      · subst h; exact ingestUpdateRecord_errOk now r a hr
      · exact hinvTail g h
    | false =>
      rw [ingestApplyResult, if_neg (by simp [hb])] at hg
      rcases List.mem_cons.mp hg with h | h
      · subst h; exact hinv g (List.mem_cons_self g fs)
      · exact ih hinvTail g h

/-- The whole ingestion reconcile pass preserves errInv when every failed
outcome carries a present, non-empty error. -/
theorem errInv_ingestReconcile (now : String) (results : List FileIngestionResult)
    (fs : List FileRecord) (hinv : errInv fs)
    (hres : ∀ r ∈ results, r.status = ResStatus.failed → r.error ≠ none ∧ r.error ≠ some "") :
    errInv (ingestReconcile now results fs) := by
  induction results generalizing fs with
  | nil => exact hinv
  | cons r rs ih =>
    have h1 : errInv (ingestApplyResult now r fs) :=
      errInv_ingestApplyResult now r fs hinv (hres r (List.mem_cons_self r rs))
    simpa [ingestReconcile, List.foldl_cons] using
      ih (ingestApplyResult now r fs) h1 (fun r' hr' => hres r' (List.mem_cons_of_mem r hr'))

/-- The pending pass preserves errInv: submitted records become pending,
others are untouched. -/
theorem errInv_ingestPendingPass (subset : List FileRecord) (fs : List FileRecord)
    (hinv : errInv fs) : errInv (ingestPendingPass subset fs) := by
  intro g hg
  rw [ingestPendingPass] at hg
  rcases List.mem_map.mp hg with ⟨f, hf, rfl⟩
  cases hc : subset.any (fun p => p.id == f.id) with
  | true => simp [hc]
  | false => simpa [hc] using hinv f hf

/-- The catch path preserves errInv: pending records get the non-empty
generic transport message, others are untouched. -/
theorem errInv_ingestFailPass (fs : List FileRecord) (hinv : errInv fs) :
    errInv (ingestFailPass fs) := by
  intro g hg
  rw [ingestFailPass] at hg
  rcases List.mem_map.mp hg with ⟨f, hf, rfl⟩
  cases hc : f.ingestionStatus == some IngestionStatus.pending with
  | true => simp [hc]
  | false => simpa [hc] using hinv f hf

/-! ## Concrete sample data for witnesses and counterexamples -/

/-- A plain record with every flow flag clear and every derived field
absent, as folder selection creates records (apart from the default
selected flag, which handleFileUpload sets to true and the toggles can
clear). -/
def sampleBase : FileRecord :=
  { id := "f1", name := "A", path := "A", size := 1, type := "csv",
    selected := false, processed := false, uploaded := false,
    qualityMetrics := none, classification := none, ingestionStatus := none,
    ingestionDetails := none, analysis := none, error := none }

/-- Record A of the retry-isolation example, with a successful ingestion. -/
def exRecA : FileRecord :=
  { sampleBase with
      id := "ida", name := "A",
      ingestionStatus := some IngestionStatus.success }

/-- Record B of the retry-isolation example, failed with an error. -/
def exRecB : FileRecord :=
  { sampleBase with
      id := "idb", name := "B",
      ingestionStatus := some IngestionStatus.failed, error := some "boom" }

/-- Record C of the retry-isolation example, failed with an error. -/
def exRecC : FileRecord :=
  { sampleBase with
      id := "idc", name := "C",
      ingestionStatus := some IngestionStatus.failed, error := some "boom" }

/-- Batch result of the retry-isolation example: only B, successful. -/
def exResultB : FileIngestionResult :=
  { fileName := "B", fileSize := 1, status := ResStatus.success,
    ingestionDetails := JsValue.vnull, error := none }

/-! ## C2 : upload stage gate -/

/-- C2 counterexample: with the uploadStatus flag at success the gate out
of the upload stage returns true even though a selected record has
uploaded = false, refuting the claim that the decision is false whenever
such a record exists. -/
theorem c2_upload_gate_counterexample :
    canProceed 2 [{ sampleBase with selected := true, uploaded := false }]
        UploadStatus.success = true ∧
      ({ sampleBase with selected := true, uploaded := false } : FileRecord).selected = true ∧
      ({ sampleBase with selected := true, uploaded := false } : FileRecord).uploaded = false :=
  ⟨rfl, rfl, rfl⟩

/-- C2 (amended): the advance decision out of the upload stage consults
only the uploadStatus flag: it is true exactly when that flag is success,
and does not depend on the record store at all. -/
theorem c2_upload_gate_amended (files files' : List FileRecord) (us : UploadStatus) :
    (canProceed 2 files us = true ↔ us = UploadStatus.success) ∧
      canProceed 2 files us = canProceed 2 files' us := by
  constructor
  · cases us <;> simp [canProceed]
  · rfl

/-! ## C3 : detail shape normalization -/

/-- A bare structured ingestion detail object, as handleIngestion stores
one. -/
def sampleStructuredDetail : JsValue :=
  .vobj [("type", .vstr "structured"), ("tables", .varr []),
         ("startTime", .vstr "t0"), ("endTime", .vstr "t1")]

/-- C3 counterexample: a bare detail object does not normalize to the same
sequence as the one-element array holding it; Object.values turns it into
its four property values rather than a single-entry sequence. -/
theorem c3_shape_counterexample :
    getIngestionDetailsAsArray sampleStructuredDetail ≠
      getIngestionDetailsAsArray (JsValue.varr [sampleStructuredDetail]) := by
  intro h
  have h4 : (getIngestionDetailsAsArray sampleStructuredDetail).length = 4 := rfl
  rw [h] at h4
  have h1 : (getIngestionDetailsAsArray (JsValue.varr [sampleStructuredDetail])).length = 1 :=
    rfl
  rw [h1] at h4
  exact absurd h4 (by decide)

/-- C3 (amended): a one-element array and a one-entry name-keyed object
both normalize to the same single-entry sequence, but a bare detail object
normalizes to the sequence of its property values via Object.values, which
differs from the single-entry sequence. -/
theorem c3_shape_amended (d : JsValue) (k : String) (kvs : List (String × JsValue)) :
    getIngestionDetailsAsArray (JsValue.varr [d]) = [d] ∧
      getIngestionDetailsAsArray (JsValue.vobj [(k, d)]) = [d] ∧
      getIngestionDetailsAsArray (JsValue.vobj kvs) = kvs.map Prod.snd :=
  ⟨rfl, rfl, rfl⟩

/-! ## C10 : processing reconcile touches only selected records -/

/-- C10: the processing reconciliation returns every non-selected record
unchanged, even when an outcome in the list bears its name. -/
theorem c10_nonselected_untouched (results : List ApiResult) (files : List FileRecord)
    (i : Nat) (f : FileRecord) (hf : files[i]? = some f) (hsel : f.selected = false) :
    (startProcessingReconcile results files)[i]? = some f := by
  rw [startProcessingReconcile, List.getElem?_map, hf]
  cases hm : resultMapGet results f.name with
  | none => simp [hm]
  | some r => simp [hm, hsel]

/-- C10 witness: a non-selected record named A is untouched although the
outcome list carries a result named A. -/
theorem c10_witness :
    (startProcessingReconcile
        [{ fileName := "A", qualityMetrics := ⟨3, 3, 3⟩,
           classification := Classification.structured }] [sampleBase])[0]? =
      some sampleBase :=
  c10_nonselected_untouched _ _ 0 sampleBase rfl rfl

/-! ## C5 : selective matching of both reconcilers -/

/-- C5: both reconciliation passes return any record whose name matches no
outcome in the list entirely unchanged, every field included. -/
theorem c5_selective_matching (now : String) (ingResults : List FileIngestionResult)
    (procResults : List ApiResult) (files : List FileRecord) (i : Nat) (f : FileRecord)
    (hf : files[i]? = some f) :
    ((∀ r ∈ ingResults, r.fileName ≠ f.name) →
        (ingestReconcile now ingResults files)[i]? = some f) ∧
      ((∀ r ∈ procResults, r.fileName ≠ f.name) →
        (startProcessingReconcile procResults files)[i]? = some f) := by
  constructor
  · intro hne
    exact ingestReconcile_skip now ingResults files i f hf hne
  · intro hne
    rw [startProcessingReconcile, List.getElem?_map, hf]
    simp [resultMapGet_eq_none procResults f.name hne]

/-- Ingestion outcomes for A and C only, used to show B untouched. -/
def ingOutcomesAC : List FileIngestionResult :=
  [{ fileName := "A", fileSize := 1, status := ResStatus.success,
     ingestionDetails := JsValue.vnull, error := none },
   { fileName := "C", fileSize := 1, status := ResStatus.failed,
     ingestionDetails := JsValue.vnull, error := some "boom" }]

/-- Analysis outcomes for A and C only, used to show B untouched. -/
def procOutcomesAC : List ApiResult :=
  [{ fileName := "A", qualityMetrics := ⟨3, 3, 3⟩,
     classification := Classification.structured },
   { fileName := "C", qualityMetrics := ⟨2, 2, 2⟩,
     classification := Classification.unstructured }]

/-- C5 witness: reconciling outcomes for A and C against the store A, B, C
returns record B byte-for-byte unchanged, under both reconcilers. -/
theorem c5_witness :
    (ingestReconcile "t" ingOutcomesAC [exRecA, exRecB, exRecC])[1]? = some exRecB ∧
      (startProcessingReconcile procOutcomesAC [exRecA, exRecB, exRecC])[1]? = some exRecB :=
  ⟨(c5_selective_matching "t" ingOutcomesAC procOutcomesAC [exRecA, exRecB, exRecC] 1 exRecB
      rfl).1 (by decide),
   (c5_selective_matching "t" ingOutcomesAC procOutcomesAC [exRecA, exRecB, exRecC] 1 exRecB
      rfl).2 (by decide)⟩

/-! ## C7 : processing reset atomicity -/

/-- A selected, fully analyzed record carrying an analysis payload. -/
def recWithAnalysis : FileRecord :=
  { sampleBase with
      selected := true, processed := true,
      qualityMetrics := some ⟨3, 3, 3⟩,
      classification := some Classification.structured,
      analysis := some (JsValue.vstr "summary") }

/-- C7 counterexample: restarting processing clears processed with the
quality metrics and classification, but the analysis payload survives both
reset paths, so not every derived analysis field is reset to undefined. -/
theorem c7_reset_counterexample :
    ((startProcessingReset [recWithAnalysis])[0]?).map FileRecord.processed = some false ∧
      ((startProcessingReset [recWithAnalysis])[0]?).map FileRecord.analysis =
        some (some (JsValue.vstr "summary")) ∧
      ((resetProcessing [recWithAnalysis])[0]?).map FileRecord.analysis =
        some (some (JsValue.vstr "summary")) :=
  ⟨rfl, rfl, rfl⟩

/-- C7 (amended): both restart paths reset processed, qualityMetrics and
classification together in one single pass over the store (selected
records only for the pass inside startProcessing, every record for
resetProcessing), leaving every other field, the analysis payload
included, untouched; the analysis field is not cleared. -/
theorem c7_reset_amended (files : List FileRecord) (i : Nat) (f : FileRecord)
    (hf : files[i]? = some f) :
    (f.selected = true → (startProcessingReset files)[i]? =
        some { f with processed := false, qualityMetrics := none, classification := none }) ∧
      (f.selected = false → (startProcessingReset files)[i]? = some f) ∧
      (resetProcessing files)[i]? =
        some { f with processed := false, qualityMetrics := none, classification := none } := by
  refine ⟨fun hsel => ?_, fun hsel => ?_, ?_⟩
  · rw [startProcessingReset, List.getElem?_map, hf]
    simp [hsel]
  · rw [startProcessingReset, List.getElem?_map, hf]
    simp [hsel]
  · rw [resetProcessing, List.getElem?_map, hf]
    rfl

/-- C7 witness: the reset applied to the analyzed sample record. -/
theorem c7_witness :
    (startProcessingReset [recWithAnalysis])[0]? =
      some { recWithAnalysis with
              processed := false, qualityMetrics := none, classification := none } :=
  (c7_reset_amended [recWithAnalysis] 0 recWithAnalysis rfl).1 rfl

/-! ## C9 : empty-subset behaviour of the three batch operations -/

/-- Map with a pointwise-identity function is the identity on the list. -/
theorem listMapId {α : Type} (f : α → α) (l : List α) (h : ∀ a ∈ l, f a = a) :
    l.map f = l := by
  induction l with
  | nil => rfl
  | cons a l ih =>
    rw [List.map_cons, h a (List.mem_cons_self a l),
      ih (fun b hb => h b (List.mem_cons_of_mem a hb))]

/-- C9 (amended): handleIngestion and handleUpload guard the empty subset,
issuing no request and leaving the store unchanged, but startProcessing
has no such guard: it issues its network call unconditionally; its two
store passes do leave the store unchanged when no record is selected. -/
theorem c9_empty_subset_amended (now : String) (outcome : BatchOutcome)
    (files : List FileRecord) (results : List ApiResult) :
    (handleIngestion now [] outcome files = files ∧ ingestRequest [] = none) ∧
      (selectedFilesToUpload files = [] → uploadRequest files = none) ∧
      ((∀ f ∈ files, f.selected = false) →
        startProcessingReset files = files ∧
          startProcessingReconcile results files = files) ∧
      (processRequest files).isSome = true := by
  refine ⟨⟨rfl, rfl⟩, fun h => ?_, fun h => ⟨?_, ?_⟩, rfl⟩
  · rw [uploadRequest, h]
    rfl
  · refine listMapId _ files fun f hf => ?_
    simp [h f hf]
  · refine listMapId _ files fun f hf => ?_
    cases hm : resultMapGet results f.name with
    | none => simp [hm]
    | some r => simp [hm, h f hf]

/-- C9 counterexample: startProcessing invoked on an empty store, hence
with an empty selected subset, still constructs and issues a request. -/
theorem c9_empty_subset_counterexample :
    processRequest [] = some { fileNames := [] } := rfl

/-- C9 witness: the guarded operations at a store with nothing to
upload and no selected record. -/
theorem c9_witness :
    uploadRequest [sampleBase] = none ∧ startProcessingReset [sampleBase] = [sampleBase] :=
  ⟨(c9_empty_subset_amended "t" BatchOutcome.fatal [sampleBase] []).2.1 rfl,
   ((c9_empty_subset_amended "t" BatchOutcome.fatal [sampleBase] []).2.2.1 (by decide)).1⟩

/-! ## C4 : batch-fatal failure marking -/

/-- C4 (amended): on a batch-fatal outcome every record of the non-empty
submitted subset ends failed with the generic transport message; a record
outside the subset is untouched unless it was already pending from an
earlier batch, in which case it is marked failed as well. -/
theorem c4_batch_fatal_amended (now : String) (subset files : List FileRecord)
    (hne : subset ≠ []) (i : Nat) (f : FileRecord) (hf : files[i]? = some f) :
    (subset.any (fun p => p.id == f.id) = true →
        (handleIngestion now subset BatchOutcome.fatal files)[i]? =
          some { f with
                  ingestionStatus := some IngestionStatus.failed,
                  ingestionDetails := none,
                  error := some ("API connection failed") }) ∧
      (subset.any (fun p => p.id == f.id) = false →
        f.ingestionStatus ≠ some IngestionStatus.pending →
        (handleIngestion now subset BatchOutcome.fatal files)[i]? = some f) ∧
      (subset.any (fun p => p.id == f.id) = false →
        f.ingestionStatus = some IngestionStatus.pending →
        (handleIngestion now subset BatchOutcome.fatal files)[i]? =
          some { f with
                  ingestionStatus := some IngestionStatus.failed,
                  error := some ("API connection failed") }) := by
  have hlen : ¬(subset.length = 0) := fun h => hne (List.length_eq_zero.mp h)
  have hunfold : handleIngestion now subset BatchOutcome.fatal files =
      ingestFailPass (ingestPendingPass subset files) := by
    simp [handleIngestion, hlen]
  refine ⟨fun hin => ?_, fun hout hnp => ?_, fun hout hp => ?_⟩
  · have hin2 : ∃ x ∈ subset, x.id = f.id := by
      rcases List.any_eq_true.mp hin with ⟨x, hx, hbeq⟩
      exact ⟨x, hx, by simpa using hbeq⟩
    rw [hunfold, ingestFailPass, List.getElem?_map, ingestPendingPass, List.getElem?_map, hf]
    simp [hin2]
  · have hout2 : ¬∃ x ∈ subset, x.id = f.id := by
      rintro ⟨x, hx, hEq⟩
      have hx2 := List.any_eq_false.mp hout x hx
      simp [hEq] at hx2
    rw [hunfold, ingestFailPass, List.getElem?_map, ingestPendingPass, List.getElem?_map, hf]
    simp [hout2, hnp]
  · have hout2 : ¬∃ x ∈ subset, x.id = f.id := by
      rintro ⟨x, hx, hEq⟩
      have hx2 := List.any_eq_false.mp hout x hx
      simp [hEq] at hx2
    rw [hunfold, ingestFailPass, List.getElem?_map, ingestPendingPass, List.getElem?_map, hf]
    simp [hout2, hp]

/-- A failed record, the submitted subset of a retry. -/
def recFailedA : FileRecord :=
  { sampleBase with
      id := "a2", name := "A2",
      ingestionStatus := some IngestionStatus.failed, error := some "boom" }

/-- A stale pending record never included in the current batch. -/
def recOutsidePending : FileRecord :=
  { sampleBase with
      id := "p", name := "P", ingestionStatus := some IngestionStatus.pending }

/-- C4 counterexample: a batch-fatal operation over the subset containing
only the failed record also marks the stale pending record, which is
outside the submitted subset, as failed. -/
theorem c4_batch_fatal_counterexample :
    [recFailedA].any (fun p => p.id == recOutsidePending.id) = false ∧
      ((handleIngestion "t" [recFailedA] BatchOutcome.fatal
          [recFailedA, recOutsidePending])[1]?).map FileRecord.ingestionStatus =
        some (some IngestionStatus.failed) :=
  ⟨rfl, rfl⟩

/-- C4 witness: the submitted record itself ends failed with the generic
message. -/
theorem c4_witness :
    (handleIngestion "t" [recFailedA] BatchOutcome.fatal [recFailedA])[0]? =
      some { recFailedA with
              ingestionStatus := some IngestionStatus.failed,
              ingestionDetails := none,
              error := some ("API connection failed") } :=
  (c4_batch_fatal_amended "t" [recFailedA] [recFailedA] (List.cons_ne_nil _ _) 0 recFailedA
      rfl).1 rfl

/-! ## C8 : error message retention -/

/-- C8 (amended): provided every failed per-file outcome carries a
present, non-empty error message, a whole ingestion operation preserves
the invariant that every failed record carries a present, non-empty error
message; an outcome with a null or empty error instead leaves its record
failed with no message, as the counterexample shows. -/
theorem c8_error_retention_amended (now : String) (subset : List FileRecord)
    (outcome : BatchOutcome) (files : List FileRecord) (hinv : errInv files)
    (hok : ∀ results, outcome = BatchOutcome.ok results →
      ∀ r ∈ results, r.status = ResStatus.failed → r.error ≠ none ∧ r.error ≠ some "") :
    errInv (handleIngestion now subset outcome files) := by
  by_cases hlen : subset.length = 0
  · simpa [handleIngestion, hlen] using hinv
  · cases outcome with
    | ok results =>
      have h1 := errInv_ingestPendingPass subset files hinv
      have h2 := errInv_ingestReconcile now results _ h1 (hok results rfl)
      simpa [handleIngestion, hlen] using h2
    | fatal =>
      have h1 := errInv_ingestPendingPass subset files hinv
      have h2 := errInv_ingestFailPass _ h1
      simpa [handleIngestion, hlen] using h2

/-- A failed outcome whose error entry is null. -/
def resFailedNoError : FileIngestionResult :=
  { fileName := "A2", fileSize := 0, status := ResStatus.failed,
    ingestionDetails := JsValue.vnull, error := none }

/-- C8 counterexample: a per-file failed outcome carrying a null error
marks the record failed with no error message at all, because
result.error || undefined stores undefined. -/
theorem c8_error_retention_counterexample :
    ((handleIngestion "t" [recFailedA] (BatchOutcome.ok [resFailedNoError])
        [recFailedA])[0]?).map FileRecord.ingestionStatus =
      some (some IngestionStatus.failed) ∧
      ((handleIngestion "t" [recFailedA] (BatchOutcome.ok [resFailedNoError])
          [recFailedA])[0]?).map FileRecord.error = some none :=
  ⟨rfl, rfl⟩

/-- C8 witness: the invariant holds across a batch-fatal operation on the
failed sample record. -/
theorem c8_witness :
    errInv (handleIngestion "t" [recFailedA] BatchOutcome.fatal [recFailedA]) :=
  c8_error_retention_amended "t" [recFailedA] BatchOutcome.fatal [recFailedA]
    (by unfold errInv; decide) (fun results h => BatchOutcome.noConfusion h)

/-! ## C6 : monotone uploaded flag -/

/-- A map whose function keeps the uploaded flag keeps it at every
index. -/
theorem getElem?_map_uploaded (g : FileRecord → FileRecord)
    (hg : ∀ f, (g f).uploaded = f.uploaded) (fs : List FileRecord) (i : Nat) :
    ((fs.map g)[i]?).map FileRecord.uploaded = (fs[i]?).map FileRecord.uploaded := by
  rw [List.getElem?_map]
  cases hf : fs[i]? with
  | none => rfl
  | some f => simp [hg f]

/-- The pending pass keeps the uploaded flag at every index. -/
theorem ingestPendingPass_uploaded (subset fs : List FileRecord) (i : Nat) :
    ((ingestPendingPass subset fs)[i]?).map FileRecord.uploaded =
      (fs[i]?).map FileRecord.uploaded := by
  rw [ingestPendingPass]
  exact getElem?_map_uploaded _ (fun f => by split <;> rfl) fs i

/-- The catch path keeps the uploaded flag at every index. -/
theorem ingestFailPass_uploaded (fs : List FileRecord) (i : Nat) :
    ((ingestFailPass fs)[i]?).map FileRecord.uploaded =
      (fs[i]?).map FileRecord.uploaded := by
  rw [ingestFailPass]
  exact getElem?_map_uploaded _ (fun f => by split <;> rfl) fs i

/-- A whole ingestion operation keeps the uploaded flag at every index. -/
theorem handleIngestion_uploaded (now : String) (subset : List FileRecord)
    (outcome : BatchOutcome) (files : List FileRecord) (i : Nat) :
    ((handleIngestion now subset outcome files)[i]?).map FileRecord.uploaded =
      (files[i]?).map FileRecord.uploaded := by
  by_cases hlen : subset.length = 0
  · simp [handleIngestion, hlen]
  · cases outcome with
    | ok results =>
      have hu : handleIngestion now subset (BatchOutcome.ok results) files =
          ingestReconcile now results (ingestPendingPass subset files) := by
        simp [handleIngestion, hlen]
      rw [hu, ingestReconcile_uploaded, ingestPendingPass_uploaded]
    | fatal =>
      have hu : handleIngestion now subset BatchOutcome.fatal files =
          ingestFailPass (ingestPendingPass subset files) := by
        simp [handleIngestion, hlen]
      rw [hu, ingestFailPass_uploaded, ingestPendingPass_uploaded]

/-- C6: the uploaded flag is monotone: the upload reconcile only ever sets
it to true, and every other store operation (the processing reset and
reconcile, the explicit reset, whole ingestion operations, the retry, and
the selection toggles) keeps it; no pass sets it back to false. -/
theorem c6_uploaded_monotone :
    (∀ (ufs : List UploadedFile) (files : List FileRecord) (i : Nat) (f : FileRecord),
        files[i]? = some f → f.uploaded = true →
        ((handleUploadReconcile ufs files)[i]?).map FileRecord.uploaded = some true) ∧
      (∀ (files : List FileRecord) (i : Nat) (f : FileRecord),
        files[i]? = some f → f.uploaded = true →
        ((startProcessingReset files)[i]?).map FileRecord.uploaded = some true) ∧
      (∀ (results : List ApiResult) (files : List FileRecord) (i : Nat) (f : FileRecord),
        files[i]? = some f → f.uploaded = true →
        ((startProcessingReconcile results files)[i]?).map FileRecord.uploaded = some true) ∧
      (∀ (files : List FileRecord) (i : Nat) (f : FileRecord),
        files[i]? = some f → f.uploaded = true →
        ((resetProcessing files)[i]?).map FileRecord.uploaded = some true) ∧
      (∀ (now : String) (subset : List FileRecord) (outcome : BatchOutcome)
        (files : List FileRecord) (i : Nat) (f : FileRecord),
        files[i]? = some f → f.uploaded = true →
        ((handleIngestion now subset outcome files)[i]?).map FileRecord.uploaded = some true) ∧
      (∀ (now : String) (outcome : BatchOutcome) (files : List FileRecord) (i : Nat)
        (f : FileRecord),
        files[i]? = some f → f.uploaded = true →
        ((retryFailedIngestion now outcome files)[i]?).map FileRecord.uploaded = some true) ∧
      (∀ (fid : String) (files : List FileRecord) (i : Nat) (f : FileRecord),
        files[i]? = some f → f.uploaded = true →
        ((toggleFileSelection fid files)[i]?).map FileRecord.uploaded = some true) ∧
      (∀ (b : Bool) (files : List FileRecord) (i : Nat) (f : FileRecord),
        files[i]? = some f → f.uploaded = true →
        ((toggleAllFiles b files)[i]?).map FileRecord.uploaded = some true) := by
  refine ⟨?_, ?_, ?_, ?_, ?_, ?_, ?_, ?_⟩
  · intro ufs files i f hf hu
    rw [handleUploadReconcile, List.getElem?_map, hf]
    cases hm : ufs.find? (fun uf => uf.name == f.name) with
    | none => simp [hm, hu]
    | some uf => simp [hm]
  · intro files i f hf hu
    rw [startProcessingReset]
    rw [getElem?_map_uploaded _ (fun g => by split <;> rfl) files i, hf]
    simp [hu]
  · intro results files i f hf hu
    rw [startProcessingReconcile]
    rw [getElem?_map_uploaded _
      (fun g => by
        cases hm : resultMapGet results g.name with
        | none => simp [hm]
        | some r =>
          simp only [hm]
          split <;> rfl)
      files i, hf]
    simp [hu]
  · intro files i f hf hu
    rw [resetProcessing]
    rw [getElem?_map_uploaded
      (fun f => { f with processed := false, qualityMetrics := none, classification := none })
      (fun g => rfl) files i, hf]
    simp [hu]
  · intro now subset outcome files i f hf hu
    rw [handleIngestion_uploaded, hf]
    simp [hu]
  · intro now outcome files i f hf hu
    rw [retryFailedIngestion, handleIngestion_uploaded, hf]
    simp [hu]
  · intro fid files i f hf hu
    rw [toggleFileSelection]
    rw [getElem?_map_uploaded _ (fun g => by split <;> rfl) files i, hf]
    simp [hu]
  · intro b files i f hf hu
    rw [toggleAllFiles]
    rw [getElem?_map_uploaded (fun file => { file with selected := b })
      (fun g => rfl) files i, hf]
    simp [hu]

/-- A record that is already uploaded and selected. -/
def recUploaded : FileRecord := { sampleBase with uploaded := true, selected := true }

/-- C6 witness: the flag survives an upload reconcile with no matching
entry and a batch-fatal retry. -/
theorem c6_witness :
    ((handleUploadReconcile [] [recUploaded])[0]?).map FileRecord.uploaded = some true ∧
      ((retryFailedIngestion "t" BatchOutcome.fatal [recUploaded])[0]?).map
        FileRecord.uploaded = some true :=
  ⟨c6_uploaded_monotone.1 [] [recUploaded] 0 recUploaded rfl rfl,
   c6_uploaded_monotone.2.2.2.2.2.1 "t" BatchOutcome.fatal [recUploaded] 0 recUploaded rfl rfl⟩

/-! ## C1 : retry isolation -/

/-- C1 (amended): the retry derives exactly the failed subset and
re-submits only it; every success record is left unchanged by the whole
retry pass; a failed record that the batch result does not mention ends
the pass pending (set at submission and never reconciled back), not
failed. -/
theorem c1_retry_isolation_amended (now : String) (results : List FileIngestionResult)
    (files : List FileRecord)
    (hres : ∀ r ∈ results, ∃ g ∈ files,
      g.ingestionStatus = some IngestionStatus.failed ∧ g.name = r.fileName)
    (hdistinct : ∀ f ∈ files, ∀ g ∈ files,
      f.ingestionStatus = some IngestionStatus.success →
      g.ingestionStatus = some IngestionStatus.failed → f.id ≠ g.id ∧ f.name ≠ g.name) :
    (∀ g, g ∈ retrySubset files ↔
        g ∈ files ∧ g.ingestionStatus = some IngestionStatus.failed) ∧
      (∀ (i : Nat) (f : FileRecord), files[i]? = some f →
        f.ingestionStatus = some IngestionStatus.success →
        (retryFailedIngestion now (BatchOutcome.ok results) files)[i]? = some f) ∧
      (∀ (i : Nat) (f : FileRecord), files[i]? = some f →
        f.ingestionStatus = some IngestionStatus.failed →
        (∀ r ∈ results, r.fileName ≠ f.name) →
        (retryFailedIngestion now (BatchOutcome.ok results) files)[i]? =
          some { f with
                  ingestionStatus := some IngestionStatus.pending,
                  ingestionDetails := none, error := none }) := by
  refine ⟨fun g => ?_, fun i f hf hs => ?_, fun i f hf hfailed hmiss => ?_⟩
  · simp [retrySubset, List.mem_filter]
  · have hfmem : f ∈ files := List.getElem?_mem hf
    by_cases hempty : (retrySubset files).length = 0
    · simpa [retryFailedIngestion, handleIngestion, hempty] using hf
    · have hne : ∀ r ∈ results, r.fileName ≠ f.name := by
        intro r hr
        obtain ⟨g, hg, hgf, hgn⟩ := hres r hr
        exact fun h => (hdistinct f hfmem g hg hs hgf).2 (hgn.trans h).symm
      have hany2 : ¬∃ x ∈ retrySubset files, x.id = f.id := by
        rintro ⟨x, hx, hEq⟩
        have hp2 : x ∈ files ∧ x.ingestionStatus = some IngestionStatus.failed := by
          simpa [retrySubset, List.mem_filter] using hx
        exact (hdistinct f hfmem x hp2.1 hs hp2.2).1 hEq.symm
      have hpend : (ingestPendingPass (retrySubset files) files)[i]? = some f := by
        rw [ingestPendingPass, List.getElem?_map, hf]
        simp [hany2]
      have hskip := ingestReconcile_skip now results _ i f hpend hne
      simpa [retryFailedIngestion, handleIngestion, hempty] using hskip
  · have hfmem : f ∈ files := List.getElem?_mem hf
    have hsub : f ∈ retrySubset files := by
      simp [retrySubset, List.mem_filter, hfmem, hfailed]
    have hempty : ¬((retrySubset files).length = 0) := by
      intro h
      rw [List.length_eq_zero.mp h] at hsub
      simp at hsub
    have hany : (retrySubset files).any (fun p => p.id == f.id) = true :=
      List.any_eq_true.mpr ⟨f, hsub, by simp⟩
    have hpend : (ingestPendingPass (retrySubset files) files)[i]? =
        some { f with
                ingestionStatus := some IngestionStatus.pending,
                ingestionDetails := none, error := none } := by
      rw [ingestPendingPass, List.getElem?_map, hf]
      have hany2 : ∃ x ∈ retrySubset files, x.id = f.id := ⟨f, hsub, rfl⟩
      simp [hany2]
    have hskip := ingestReconcile_skip now results _ i _ hpend hmiss
    simpa [retryFailedIngestion, handleIngestion, hempty] using hskip

/-- C1 counterexample: retrying the store A success, B failed, C failed
with a batch result reporting only B leaves record C pending, not failed:
the retry marks the whole failed subset pending at submission and the
missing outcome never reconciles C back to failed. -/
theorem c1_retry_isolation_counterexample :
    ((retryFailedIngestion "t" (BatchOutcome.ok [exResultB])
        [exRecA, exRecB, exRecC])[2]?).map FileRecord.ingestionStatus =
      some (some IngestionStatus.pending) ∧
      ((retryFailedIngestion "t" (BatchOutcome.ok [exResultB])
          [exRecA, exRecB, exRecC])[2]?).map FileRecord.ingestionStatus ≠
        some (some IngestionStatus.failed) := by
  refine ⟨rfl, fun h => ?_⟩
  have h0 : ((retryFailedIngestion "t" (BatchOutcome.ok [exResultB])
      [exRecA, exRecB, exRecC])[2]?).map FileRecord.ingestionStatus =
      some (some IngestionStatus.pending) := rfl
  rw [h0] at h
  exact absurd h (by decide)

/-- C1 witness: the success record A of the example store is returned
unchanged by the retry that reports only B. -/
theorem c1_witness :
    (retryFailedIngestion "t" (BatchOutcome.ok [exResultB])
        [exRecA, exRecB, exRecC])[0]? = some exRecA :=
  (c1_retry_isolation_amended "t" [exResultB] [exRecA, exRecB, exRecC]
      (by decide) (by decide)).2.1 0 exRecA rfl rfl
